import Mathlib

/-!
Shallow embedding of the hellfire router-configuration core (Go sources) and
proofs about it.  Strings are modelled as lists of characters (Go iterates
strings by rune); Go maps are modelled as association lists with
insert-or-update semantics, which determinizes Go's unspecified map iteration
order to insertion order.  Filesystem contents are modelled as association
lists from file name to file content; fallible I/O steps are parametrized by
boolean oracles.  Side channels that do not affect the claimed behaviour
(logging, audit records, the database mirror of transaction records, and the
event bus) are omitted; every omission is noted on the definition it concerns.
-/

/-- Strings as rune sequences (Go `for _, r := range s` iterates runes). -/
abbrev Str := List Char

/-- Conversion from Lean string literals to the rune-list model. -/
def str (s : String) : Str := s.data

/-- Association-list lookup, modelling Go `m[k]` (first binding wins; the
lists we build never hold duplicate keys). -/
def getAssoc {α : Type} : List (Str × α) → Str → Option α
  | [], _ => none
  | (k', v) :: rest, k => if k' = k then some v else getAssoc rest k

/-- Association-list insert-or-update, modelling Go `m[k] = v`. -/
def setAssoc {α : Type} : List (Str × α) → Str → α → List (Str × α)
  | [], k, v => [(k, v)]
  | (k', v') :: rest, k, v =>
    if k' = k then (k', v) :: rest else (k', v') :: setAssoc rest k v

namespace uci

/-- `uci.Section` (src/pkg/uci/types.go): a config section.  `Options` and
`Lists` are Go maps, modelled as association lists. -/
structure Section where
  type : Str
  name : Str
  options : List (Str × Str)
  lists : List (Str × List Str)
deriving DecidableEq, Repr

/-- `uci.Config` (src/pkg/uci/types.go): an ordered sequence of sections. -/
structure Config where
  sections : List Section
deriving DecidableEq, Repr

/-- `uci.NewConfig`. -/
def NewConfig : Config := ⟨[]⟩

/-- `uci.NewSection`. -/
def NewSection (sectionType name : Str) : Section := ⟨sectionType, name, [], []⟩

/-- `(*Config).AddSection`. -/
def Config.AddSection (c : Config) (s : Section) : Config := ⟨c.sections ++ [s]⟩

/-- `(*Section).SetOption`: Go map assignment `s.Options[key] = value`. -/
def Section.SetOption (s : Section) (key value : Str) : Section :=
  { s with options := setAssoc s.options key value }

/-- `(*Section).GetOption`. -/
def Section.GetOption (s : Section) (key : Str) : Option Str :=
  getAssoc s.options key

/-- `(*Section).AddListValue`: appends to `s.Lists[key]`, creating the list
when absent. -/
def Section.AddListValue (s : Section) (key value : Str) : Section :=
  match getAssoc s.lists key with
  | none => { s with lists := setAssoc s.lists key [value] }
  | some vs => { s with lists := setAssoc s.lists key (vs ++ [value]) }

/-- `(*Config).GetSection`. -/
def Config.GetSection (c : Config) (sectionType name : Str) : Option Section :=
  c.sections.find? (fun s => s.type = sectionType ∧ s.name = name)

/-- `(*Config).GetSectionsByType`. -/
def Config.GetSectionsByType (c : Config) (sectionType : Str) : List Section :=
  c.sections.filter (fun s => s.type = sectionType)

/-- ASCII whitespace recognized by the model of `strings.TrimSpace` (the Go
function also trims rarer Unicode spaces; no hellfire config line uses them). -/
def isSpace (c : Char) : Bool := c = ' ' ∨ c = '\t' ∨ c = '\n' ∨ c = '\r'

/-- Left half of `strings.TrimSpace`. -/
def trimLeft : Str → Str
  | [] => []
  | c :: rest => if isSpace c then trimLeft rest else c :: rest

/-- Right half of `strings.TrimSpace`. -/
def trimRight : Str → Str
  | [] => []
  | c :: rest =>
    let r := trimRight rest
    if r = [] ∧ isSpace c then [] else c :: r

/-- `strings.TrimSpace`. -/
def TrimSpace (s : Str) : Str := trimRight (trimLeft s)

/-- Loop body of `parseQuotedLine` (src/pkg/uci/parser.go): state is
(remaining input, parts, current, inQuotes, quoteChar); the `switch` cases
are ported in source order. -/
def parseQuotedLineAux : Str → List Str → Str → Bool → Char → List Str
  | [], parts, current, _, _ =>
    if current ≠ [] then parts ++ [current] else parts
  | r :: rest, parts, current, inQuotes, quoteChar =>
    if ¬inQuotes ∧ (r = '\'' ∨ r = '"') then
      parseQuotedLineAux rest parts current true r
    else if inQuotes ∧ r = quoteChar then
      parseQuotedLineAux rest (parts ++ [current]) [] false (Char.ofNat 0)
    else if inQuotes then
      parseQuotedLineAux rest parts (current ++ [r]) inQuotes quoteChar
    else if r = ' ' ∨ r = '\t' then
      if current ≠ [] then
        parseQuotedLineAux rest (parts ++ [current]) [] inQuotes quoteChar
      else
        parseQuotedLineAux rest parts current inQuotes quoteChar
    else
      parseQuotedLineAux rest parts (current ++ [r]) inQuotes quoteChar

/-- `parseQuotedLine`: splits a line into quoted or unquoted tokens. -/
def parseQuotedLine (line : Str) : List Str :=
  parseQuotedLineAux line [] [] false (Char.ofNat 0)

/-- Split on `'\n'`, keeping a (possibly empty) final fragment, the raw
splitting step under `bufio.ScanLines`. -/
def splitNl : Str → List Str
  | [] => [[]]
  | c :: rest =>
    match splitNl rest with
    | [] => [[]]
    | p :: ps => if c = '\n' then [] :: p :: ps else (c :: p) :: ps

/-- `dropCR` of `bufio.ScanLines`: strip one trailing `'\r'`. -/
def dropCR (l : Str) : Str :=
  if l.getLast? = some '\r' then l.dropLast else l

/-- The token stream of `bufio.Scanner` with `ScanLines`: lines split on
`'\n'`, each stripped of one trailing `'\r'`; a trailing newline produces no
empty final token, and empty input produces no tokens. -/
def scanLines (s : Str) : List Str :=
  if s = [] then []
  else if s.getLast? = some '\n' then ((splitNl s).dropLast).map dropCR
  else (splitNl s).map dropCR

/-- The scan loop of `uci.Parse` (src/pkg/uci/parser.go), one recursive call
per scanned line; state is (remaining lines, lineNum so far, currentSection,
config built so far). -/
def parseLines : List Str → Nat → Option Section → Config → Except String Config
  | [], _, currentSection, config =>
    match currentSection with
    | some s => .ok (config.AddSection s)
    | none => .ok config
  | l :: rest, n, currentSection, config =>
    let lineNum := n + 1
    let line := TrimSpace l
    if line = [] ∨ (str "#").isPrefixOf line then
      parseLines rest lineNum currentSection config
    else if (str "config ").isPrefixOf line then
      let config' := match currentSection with
        | some s => config.AddSection s
        | none => config
      match parseQuotedLine (line.drop 7) with
      | [] => .error ("line " ++ toString lineNum ++ ": invalid config line")
      | sectionType :: partsRest =>
        parseLines rest lineNum
          (some (NewSection sectionType (partsRest.headD []))) config'
    else if (str "option ").isPrefixOf line then
      match currentSection with
      | none => .error ("line " ++ toString lineNum ++ ": option outside of section")
      | some s =>
        match parseQuotedLine (line.drop 7) with
        | [key, value] =>
          parseLines rest lineNum (some (s.SetOption key value)) config
        | _ => .error ("line " ++ toString lineNum ++ ": invalid option line")
    else if (str "list ").isPrefixOf line then
      match currentSection with
      | none => .error ("line " ++ toString lineNum ++ ": list outside of section")
      | some s =>
        match parseQuotedLine (line.drop 5) with
        | [key, value] =>
          parseLines rest lineNum (some (s.AddListValue key value)) config
        | _ => .error ("line " ++ toString lineNum ++ ": invalid list line")
    else
      .error ("line " ++ toString lineNum ++ ": unknown syntax: " ++ String.mk line)

/-- `uci.Parse`: parse a UCI configuration from the given text (the
`io.Reader`'s contents). -/
def Parse (s : Str) : Except String Config :=
  parseLines (scanLines s) 0 none NewConfig

/-- `escapeQuotes`: `strings.ReplaceAll(s, "'", "\\'")`. -/
def escapeQuotes : Str → Str
  | [] => []
  | c :: rest =>
    if c = '\'' then '\\' :: '\'' :: escapeQuotes rest else c :: escapeQuotes rest

/-- The per-section output of `uci.Write`: header line, then option lines,
then list lines.  Go iterates the `Options` and `Lists` maps in unspecified
order; the model iterates in insertion order (one admissible order). -/
def writeSection (s : Section) : Str :=
  (if s.name ≠ [] then
    str "config " ++ s.type ++ str " '" ++ s.name ++ str "'\n"
  else
    str "config " ++ s.type ++ str "\n")
  ++ (s.options.flatMap (fun kv =>
        str "\toption '" ++ kv.1 ++ str "' '" ++ escapeQuotes kv.2 ++ str "'\n"))
  ++ (s.lists.flatMap (fun kvs =>
        kvs.2.flatMap (fun v =>
          str "\tlist '" ++ kvs.1 ++ str "' '" ++ escapeQuotes v ++ str "'\n")))

/-- `uci.Write`: emit a config, with a blank line between sections (none
before the first). -/
def Write (config : Config) : Str :=
  match config.sections with
  | [] => []
  | s :: rest => writeSection s ++ rest.flatMap (fun s' => '\n' :: writeSection s')

end uci

namespace appliers

/-- `DefaultCIDR` (network applier): fallback for unknown netmasks. -/
def DefaultCIDR : Nat := 24

/-- The `masks` table literal inside `convertNetmaskToCIDR`, in source order
(a Go map literal; the model keeps the textual order, which `getAssoc` treats
as a map since the keys are distinct). -/
def masks : List (Str × Nat) :=
  [ (str "255.255.255.255", 32),
    (str "255.255.255.254", 31),
    (str "255.255.255.252", 30),
    (str "255.255.255.248", 29),
    (str "255.255.255.240", 28),
    (str "255.255.255.224", 27),
    (str "255.255.255.192", 26),
    (str "255.255.255.128", 25),
    (str "255.255.255.0", 24),
    (str "255.255.254.0", 23),
    (str "255.255.252.0", 22),
    (str "255.255.248.0", 21),
    (str "255.255.240.0", 20),
    (str "255.255.224.0", 19),
    (str "255.255.192.0", 18),
    (str "255.255.128.0", 17),
    (str "255.255.0.0", 16),
    (str "255.254.0.0", 15),
    (str "255.252.0.0", 14),
    (str "255.248.0.0", 13),
    (str "255.240.0.0", 12),
    (str "255.224.0.0", 11),
    (str "255.192.0.0", 10),
    (str "255.128.0.0", 9),
    (str "255.0.0.0", 8) ]

/-- `convertNetmaskToCIDR` (network applier): table lookup with `/24`
fallback. -/
def convertNetmaskToCIDR (netmask : Str) : Nat :=
  match getAssoc masks netmask with
  | some cidr => cidr
  | none => DefaultCIDR

end appliers

/-- The active configuration directory, as name → file content. -/
abbrev Disk := List (Str × Str)

namespace config

/-- `config.Manager` (staging overlay).  The `configDir` contents are passed
separately as a `Disk`; the mutex is implicit (all operations are atomic
functions). -/
structure Manager where
  staged : List (Str × uci.Config)
deriving DecidableEq, Repr

/-- `config.NewManager` (directory paths are not part of the model). -/
def NewManager : Manager := ⟨[]⟩

/-- `(*config.Manager).Load`: staged overlay first, else read and parse the
on-disk file; a missing file yields an empty config. -/
def Load (m : Manager) (disk : Disk) (name : Str) : Except String uci.Config :=
  match getAssoc m.staged name with
  | some c => .ok c
  | none =>
    match getAssoc disk name with
    | none => .ok uci.NewConfig
    | some text =>
      match uci.Parse text with
      | .ok c => .ok c
      | .error e => .error ("failed to parse config " ++ String.mk name ++ ": " ++ e)

/-- `(*config.Manager).Stage`. -/
def Stage (m : Manager) (name : Str) (cfg : uci.Config) : Manager :=
  ⟨setAssoc m.staged name cfg⟩

/-- `(*config.Manager).HasChanges`. -/
def HasChanges (m : Manager) : Bool := ¬m.staged.isEmpty

/-- `(*config.Manager).GetChanges`. -/
def GetChanges (m : Manager) : List Str := m.staged.map (·.1)

/-- The write loop of `(*config.Manager).Commit`: each staged config is
written via temp file + rename; `writeOk name` decides whether any of the
three fallible steps (create temp, write, rename) fails for that file.  On
failure the loop aborts, keeping the files written so far. -/
def commitWrites (writeOk : Str → Bool) :
    List (Str × uci.Config) → Disk → Except String Unit × Disk
  | [], disk => (.ok (), disk)
  | (name, cfg) :: rest, disk =>
    if writeOk name then
      commitWrites writeOk rest (setAssoc disk name (uci.Write cfg))
    else
      (.error ("failed to commit config " ++ String.mk name), disk)

/-- `(*config.Manager).Commit`: refuse when nothing is staged, ensure the
config directory exists (`mkdirOk`), write every staged config, and clear the
overlay only after all writes succeed. -/
def Commit (mkdirOk : Bool) (writeOk : Str → Bool) (m : Manager) (disk : Disk) :
    Except String Unit × Manager × Disk :=
  if m.staged.isEmpty then (.error "no staged changes to commit", m, disk)
  else if ¬mkdirOk then (.error "failed to create config directory", m, disk)
  else
    match commitWrites writeOk m.staged disk with
    | (.ok _, disk') => (.ok (), ⟨[]⟩, disk')
    | (.error e, disk') => (.error e, m, disk')

/-- `(*config.Manager).Revert`. -/
def Revert (m : Manager) : Except String Unit × Manager :=
  if m.staged.isEmpty then (.error "no staged changes to revert", m)
  else (.ok (), ⟨[]⟩)

/-- The rune loop of `splitPath`: accumulate `current`, flush at `'.'`,
dropping empty segments. -/
def splitPathAux : Str → List Str → Str → List Str
  | [], parts, current => if current ≠ [] then parts ++ [current] else parts
  | r :: rest, parts, current =>
    if r = '.' then
      if current ≠ [] then splitPathAux rest (parts ++ [current]) []
      else splitPathAux rest parts []
    else
      splitPathAux rest parts (current ++ [r])

/-- `splitPath`: split a dotted path, skipping empty segments. -/
def splitPath (path : Str) : List Str := splitPathAux path [] []

/-- `parsePath`: configName, sectionName, optional optionName (later
segments beyond the third are ignored by the source as well). -/
def parsePath (path : Str) : Except String (Str × Str × Str) :=
  match splitPath path with
  | p0 :: p1 :: rest => .ok (p0, p1, rest.headD [])
  | _ => .error "invalid path: must be config.section[.option]"

/-- Section search of `Get`/`Set`: by name for named sections, by type for
anonymous ones. -/
def findSection (c : uci.Config) (sectionName : Str) : Option uci.Section :=
  c.sections.find? (fun s => s.name = sectionName ∨ (s.name = [] ∧ s.type = sectionName))

/-- `(*config.Manager).Get`: dotted-path read. -/
def Get (m : Manager) (disk : Disk) (path : Str) : Except String Str :=
  match parsePath path with
  | .error e => .error e
  | .ok (configName, sectionName, optionName) =>
    match Load m disk configName with
    | .error e => .error e
    | .ok cfg =>
      match findSection cfg sectionName with
      | none => .error ("section not found: " ++ String.mk sectionName)
      | some s =>
        if optionName = [] then .error "option name required"
        else
          match s.GetOption optionName with
          | none => .error ("option not found: " ++ String.mk optionName)
          | some v => .ok v

/-- In-place update of the first section matching the `Get`/`Set` search
predicate (the source mutates the found `*Section`). -/
def setInSections (sectionName key value : Str) : List uci.Section → List uci.Section
  | [] => []
  | s :: rest =>
    if s.name = sectionName ∨ (s.name = [] ∧ s.type = sectionName) then
      s.SetOption key value :: rest
    else
      s :: setInSections sectionName key value rest

/-- `(*config.Manager).Set`: dotted-path write; creates the section (named
after the path segment, with equal type) when missing, then re-stages the
document. -/
def Set (m : Manager) (disk : Disk) (path value : Str) : Except String Manager :=
  match parsePath path with
  | .error e => .error e
  | .ok (configName, sectionName, optionName) =>
    match Load m disk configName with
    | .error e => .error e
    | .ok cfg =>
      let cfg' : uci.Config :=
        match findSection cfg sectionName with
        | some _ => ⟨setInSections sectionName optionName value cfg.sections⟩
        | none =>
          ⟨cfg.sections ++ [(uci.NewSection sectionName sectionName).SetOption optionName value]⟩
      .ok (Stage m configName cfg')

end config

namespace snapshot

/-- `snapshot.Snapshot` together with its `Metadata` (src/pkg/snapshot/
manager.go): the snapshot directory's file contents (`files`) plus the
metadata record.  `time.Time` is modelled as a `Nat` tick count. -/
structure Snapshot where
  id : Str
  timestamp : Nat
  message : Str
  configs : List Str
  checksums : List (Str × Str)
  files : List (Str × Str)
deriving DecidableEq, Repr

/-- The snapshot directory: the set of snapshot subdirectories currently on
disk (all with readable metadata; entries the source would skip as malformed
are outside the model). -/
abbrev Store := List Snapshot

/-- The sort order of `(*snapshot.Manager).List`: newest first (the negation
of `Timestamp.After` used with `sort.Slice`, made reflexive). -/
def newerEq (a b : Snapshot) : Prop := b.timestamp ≤ a.timestamp

instance : DecidableRel newerEq := fun a b => Nat.decLe b.timestamp a.timestamp

instance : IsTotal Snapshot newerEq :=
  ⟨fun a b => (le_total b.timestamp a.timestamp).imp (fun h => h) (fun h => h)⟩

instance : IsTrans Snapshot newerEq :=
  ⟨fun _ _ _ hab hbc => le_trans hbc hab⟩

/-- `(*snapshot.Manager).List`: snapshots sorted by metadata timestamp,
newest first.  `sort.Slice` with `After` as the comparator; with distinct
timestamps the result is the unique descending order, which insertion sort
computes. -/
def listSnapshots (store : Store) : List Snapshot :=
  List.insertionSort newerEq store

/-- `(*snapshot.Manager).Load` (metadata read failures are outside the
filesystem model, which only holds readable snapshots). -/
def Load (store : Store) (id : Str) : Except String Snapshot :=
  match store.find? (fun s => s.id = id) with
  | some s => .ok s
  | none => .error ("snapshot not found: " ++ String.mk id)

/-- The per-config body of `(*snapshot.Manager).ValidateSnapshot`: the file
must exist, its hash must match the stored checksum (only checked when the
checksum map is non-empty and holds an entry for the file), and it must parse
as UCI.  `hash` stands for SHA-256 hex. -/
def validateConfigs (hash : Str → Str) (s : Snapshot) : List Str → Except String Unit
  | [] => .ok ()
  | c :: rest =>
    match getAssoc s.files c with
    | none => .error ("snapshot corrupted: " ++ String.mk c ++ " missing")
    | some content =>
      let checksumOk : Except String Unit :=
        if s.checksums ≠ [] then
          match getAssoc s.checksums c with
          | some expected =>
            if hash content ≠ expected then
              .error ("checksum mismatch for " ++ String.mk c)
            else .ok ()
          | none => .ok ()
        else .ok ()
      match checksumOk with
      | .error e => .error e
      | .ok _ =>
        match uci.Parse content with
        | .error _ => .error ("snapshot corrupted: invalid UCI in " ++ String.mk c)
        | .ok _ => validateConfigs hash s rest

/-- `(*snapshot.Manager).ValidateSnapshot`. -/
def ValidateSnapshot (hash : Str → Str) (s : Snapshot) : Except String Unit :=
  validateConfigs hash s s.configs

/-- The copy loop of `(*snapshot.Manager).Restore`: atomic copies back into
the active directory, aborting on the first failure and keeping earlier
copies. -/
def restoreCopies (copyOk : Str → Bool) (s : Snapshot) :
    List Str → Disk → Except String Unit × Disk
  | [], disk => (.ok (), disk)
  | c :: rest, disk =>
    match getAssoc s.files c with
    | none => (.error ("failed to restore config " ++ String.mk c), disk)
    | some content =>
      if copyOk c then restoreCopies copyOk s rest (setAssoc disk c content)
      else (.error ("failed to restore config " ++ String.mk c), disk)

/-- `(*snapshot.Manager).Restore`: load, validate, then copy each config
file back over the active directory. -/
def Restore (hash : Str → Str) (copyOk : Str → Bool) (store : Store)
    (disk : Disk) (id : Str) : Except String Unit × Disk :=
  match Load store id with
  | .error e => (.error e, disk)
  | .ok s =>
    match ValidateSnapshot hash s with
    | .error e => (.error ("snapshot validation failed: " ++ e), disk)
    | .ok _ => restoreCopies copyOk s s.configs disk

/-- `(*snapshot.Manager).Delete`: `os.RemoveAll` of the snapshot directory
(I/O failures are outside the filesystem model). -/
def Delete (store : Store) (id : Str) : Store :=
  store.filter (fun s => ¬(s.id = id))

/-- The delete loop of `(*snapshot.Manager).Prune`. -/
def pruneGo : List Snapshot → Store → List Str → List Str × Store
  | [], store, deleted => (deleted, store)
  | s :: rest, store, deleted => pruneGo rest (Delete store s.id) (deleted ++ [s.id])

/-- `(*snapshot.Manager).Prune`: keep the `keep` newest snapshots, delete the
rest (oldest), returning the deleted ids. -/
def Prune (store : Store) (keep : Nat) : List Str × Store :=
  let snapshots := listSnapshots store
  if snapshots.length ≤ keep then ([], store)
  else pruneGo (snapshots.drop keep) store []

/-- `(*snapshot.Manager).GetLatest`. -/
def GetLatest (store : Store) : Except String Snapshot :=
  match listSnapshots store with
  | [] => .error "no snapshots available"
  | s :: _ => .ok s

/-- The copy loop of `(*snapshot.Manager).Create`: missing source files are
silently skipped; a copy failure aborts creation. -/
def createCopies (copyOk : Str → Bool) (cfgDisk : Disk) :
    List Str → List (Str × Str) → Except String (List (Str × Str))
  | [], copied => .ok copied
  | c :: rest, copied =>
    match getAssoc cfgDisk c with
    | none => createCopies copyOk cfgDisk rest copied
    | some content =>
      if copyOk c then createCopies copyOk cfgDisk rest (copied ++ [(c, content)])
      else .error ("failed to copy config " ++ String.mk c)

/-- `(*snapshot.Manager).Create`: disk-space check, copy the existing config
files, checksum them, write metadata, then auto-prune to 100 when the store
grows beyond 100 snapshots (prune failures are logged, not fatal).  On any
failure the partial snapshot directory is removed, leaving the store
unchanged.  The database/audit/bus notifications are out of the model. -/
def Create (diskSpaceOk mkdirOk metaOk : Bool) (copyOk : Str → Bool)
    (hash : Str → Str) (now : Nat) (id : Str) (message : Str)
    (configs : List Str) (cfgDisk : Disk) (store : Store) :
    Except String Snapshot × Store :=
  if ¬mkdirOk then (.error "failed to create snapshot directory", store)
  else if ¬diskSpaceOk then (.error "insufficient disk space", store)
  else
    match createCopies copyOk cfgDisk configs [] with
    | .error e => (.error e, store)
    | .ok copied =>
      if ¬metaOk then (.error "failed to write metadata", store)
      else
        let checksums := copied.map (fun nc => (nc.1, hash nc.2))
        let snap : Snapshot :=
          ⟨id, now, message, copied.map (·.1), checksums, copied⟩
        let store' := store ++ [snap]
        if (listSnapshots store').length > 100 then
          (.ok snap, (Prune store' 100).2)
        else
          (.ok snap, store')

end snapshot

namespace transaction

/-- `transaction.State`. -/
inductive State
  | idle
  | inProgress
  | pending
  | completed
  | failed
deriving DecidableEq, Repr

/-- The string values of the `State` constants. -/
def State.toStr : State → String
  | .idle => "idle"
  | .inProgress => "in_progress"
  | .pending => "pending"
  | .completed => "completed"
  | .failed => "failed"

/-- Outcomes of the fallible external steps of a transaction, one oracle per
I/O or applier call site.  Appliers are external side effects, so their
results are keyed by applier name. -/
structure Oracles where
  mkdirOk : Bool
  diskSpaceOk : Bool
  metaOk : Bool
  snapCopyOk : Str → Bool
  writeOk : Str → Bool
  restoreCopyOk : Str → Bool
  registered : Str → Bool
  applyOk : Str → Bool
  validateOk : Str → Bool
  hash : Str → Str

/-- `transaction.Manager`'s mutable fields (all accessed under one mutex in
the source, so every model operation is one atomic step).  `confirmArmed`
models a non-nil, not-yet-closed `confirmCancelCh`; the db record and user
fields are audit-only and out of the model. -/
structure Manager where
  state : State
  currentSnapshot : Option snapshot.Snapshot
  pendingConfirm : Bool
  confirmArmed : Bool
  applyOrder : List Str
deriving Repr

/-- The world a transaction acts on: staging overlay, active directory,
snapshot directory, plus the list of applier names whose `Apply` was invoked
(observable external effect). -/
structure World where
  cfg : config.Manager
  disk : Disk
  snaps : snapshot.Store
  appliedLog : List Str
deriving Repr

/-- `transaction.NewManager`: initial state with the default apply order. -/
def NewManager : Manager :=
  ⟨.idle, none, false, false, [str "network", str "firewall", str "dhcp"]⟩

/-- The re-apply loop of `rollbackInternal`: re-apply every config named in
the snapshot metadata, collecting per-config errors; `cancelled` is the
`ctx.Done()` observation at each iteration. -/
def reapplyConfigs (o : Oracles) (cancelled : Nat → Bool) :
    List Str → Nat → World → Except String (List String) × World
  | [], _, w => (.ok [], w)
  | c :: rest, idx, w =>
    if cancelled idx then (.error "context canceled", w)
    else if ¬o.registered c then reapplyConfigs o cancelled rest (idx + 1) w
    else
      match config.Load w.cfg w.disk c with
      | .error e =>
        match reapplyConfigs o cancelled rest (idx + 1) w with
        | (.error e', w') => (.error e', w')
        | (.ok errs, w') => (.ok ((String.mk c ++ ": failed to load: " ++ e) :: errs), w')
      | .ok _ =>
        let w := { w with appliedLog := w.appliedLog ++ [c] }
        if ¬o.applyOk c then
          match reapplyConfigs o cancelled rest (idx + 1) w with
          | (.error e', w') => (.error e', w')
          | (.ok errs, w') => (.ok ((String.mk c ++ ": failed to apply") :: errs), w')
        else
          reapplyConfigs o cancelled rest (idx + 1) w

/-- `(*transaction.Manager).rollbackInternal`: pick the current snapshot (or
the latest on disk), restore it, re-apply its configs collecting errors; on
any re-apply error the state becomes `Failed`, otherwise `Idle` with the
transaction state cleared. -/
def rollbackInternal (o : Oracles) (cancelled : Nat → Bool) (m : Manager)
    (w : World) : Except String Unit × Manager × World :=
  let snapRes : Except String (snapshot.Snapshot × Manager) :=
    match m.currentSnapshot with
    | some s => .ok (s, m)
    | none =>
      match snapshot.GetLatest w.snaps with
      | .error e => .error ("no snapshot to rollback to: " ++ e)
      | .ok s => .ok (s, { m with currentSnapshot := some s })
  match snapRes with
  | .error e => (.error e, m, w)
  | .ok (snap, m) =>
    match snapshot.Restore o.hash o.restoreCopyOk w.snaps w.disk snap.id with
    | (.error e, disk') =>
      (.error ("failed to restore snapshot: " ++ e), m, { w with disk := disk' })
    | (.ok _, disk') =>
      let w := { w with disk := disk' }
      match reapplyConfigs o cancelled snap.configs 0 w with
      | (.error e, w') => (.error e, m, w')
      | (.ok rollbackErrors, w') =>
        if rollbackErrors ≠ [] then
          (.error ("rollback partially failed: " ++ String.intercalate "; " rollbackErrors),
           { m with state := .failed }, w')
        else
          (.ok (),
           { m with state := .idle, currentSnapshot := none, pendingConfirm := false },
           w')

/-- The apply-in-order loop of `(*transaction.Manager).Commit`: per applier
name, check cancellation, skip unchanged or unregistered configs, load the
just-committed config, `Apply`, then `Validate`; on any failure roll back and
become `Failed`. -/
def applyLoop (o : Oracles) (cancelled : Nat → Bool) (changedConfigs : List Str) :
    List Str → Nat → Manager → World → Except String Unit × Manager × World
  | [], _, m, w => (.ok (), m, w)
  | name :: rest, idx, m, w =>
    if cancelled idx then
      match rollbackInternal o cancelled m w with
      | (_, m', w') => (.error "context deadline exceeded", { m' with state := .failed }, w')
    else if ¬(changedConfigs.contains name) then
      applyLoop o cancelled changedConfigs rest (idx + 1) m w
    else if ¬o.registered name then
      applyLoop o cancelled changedConfigs rest (idx + 1) m w
    else
      match config.Load w.cfg w.disk name with
      | .error e =>
        match rollbackInternal o cancelled m w with
        | (_, m', w') =>
          (.error ("failed to load config " ++ String.mk name ++ ": " ++ e),
           { m' with state := .failed }, w')
      | .ok _ =>
        let w := { w with appliedLog := w.appliedLog ++ [name] }
        if ¬o.applyOk name then
          match rollbackInternal o cancelled m w with
          | (_, m', w') =>
            (.error ("failed to apply " ++ String.mk name ++ " config"),
             { m' with state := .failed }, w')
        else if ¬o.validateOk name then
          match rollbackInternal o cancelled m w with
          | (_, m', w') =>
            (.error ("validation failed for " ++ String.mk name),
             { m' with state := .failed }, w')
        else
          applyLoop o cancelled changedConfigs rest (idx + 1) m w

/-- `(*transaction.Manager).Commit`: Busy guard, NoChanges guard, snapshot,
flush staging to disk, apply-in-order, then either arm the confirmation
timer (`Pending`) or finish (`Completed`).  `now`/`snapId` carry the
wall-clock reading and generated unique id; `cancelled` observes the overall
timeout context (never fires when `overallTimeout = 0`, the
`context.Background` case).  Database records, audit logs and bus events are
out of the model. -/
def Commit (o : Oracles) (cancelled : Nat → Bool) (now : Nat) (snapId : Str)
    (message : Str) (confirmTimeout overallTimeout : Nat) (m : Manager)
    (w : World) : Except String Unit × Manager × World :=
  if m.state ≠ .idle then
    (.error ("transaction already in progress (state: " ++ m.state.toStr ++ ")"), m, w)
  else if ¬(config.HasChanges w.cfg) then
    (.error "no changes to commit", m, w)
  else
    let cancelled := if overallTimeout > 0 then cancelled else fun _ => false
    let m := { m with state := .inProgress }
    let changedConfigs := config.GetChanges w.cfg
    match snapshot.Create o.diskSpaceOk o.mkdirOk o.metaOk o.snapCopyOk o.hash
        now snapId message changedConfigs w.disk w.snaps with
    | (.error e, snaps') =>
      (.error ("failed to create snapshot: " ++ e),
       { m with state := .failed }, { w with snaps := snaps' })
    | (.ok snap, snaps') =>
      let m := { m with currentSnapshot := some snap }
      let w := { w with snaps := snaps' }
      match config.Commit o.mkdirOk o.writeOk w.cfg w.disk with
      | (.error e, cfg', disk') =>
        (.error ("failed to commit config: " ++ e),
         { m with state := .failed }, { w with cfg := cfg', disk := disk' })
      | (.ok _, cfg', disk') =>
        let w := { w with cfg := cfg', disk := disk' }
        match applyLoop o cancelled changedConfigs m.applyOrder 0 m w with
        | (.error e, m', w') => (.error e, m', w')
        | (.ok _, m', w') =>
          if confirmTimeout > 0 then
            (.ok (),
             { m' with state := .pending, pendingConfirm := true, confirmArmed := true },
             w')
          else
            (.ok (), { m' with state := .completed }, w')

/-- `(*transaction.Manager).Confirm`: only from `Pending`; closes the timer
cancel channel under the lock, then transitions to `Completed`. -/
def Confirm (m : Manager) : Except String Unit × Manager :=
  if m.state ≠ .pending then
    (.error ("no pending confirmation (state: " ++ m.state.toStr ++ ")"), m)
  else
    (.ok (),
     { m with state := .completed, pendingConfirm := false, confirmArmed := false })

/-- `(*transaction.Manager).Rollback` (context is `Background`, so never
cancelled). -/
def Rollback (o : Oracles) (m : Manager) (w : World) :
    Except String Unit × Manager × World :=
  rollbackInternal o (fun _ => false) m w

/-- The operations that can touch the engine between entering `Pending` and
the end of the confirmation window: a `Confirm()` call, or the confirmation
timer firing after `confirmT`.  The single mutex totally orders them. -/
inductive Ev
  | confirm
  | timerFire
deriving DecidableEq, Repr

/-- One serialized step of the confirm/timer interleaving.  `confirm` is
`Confirm()` (its error result is not observable here); `timerFire` is the
`timer.C` branch of `confirmationTimer`, which rolls back only when the state
is still `Pending` (when `Confirm` won the race the select's cancel branch
returns without effect, observably the same as the failed `Pending` check).
The returned flag reports whether this step performed a rollback. -/
def step (o : Oracles) (m : Manager) (w : World) : Ev → (Manager × World) × Bool
  | .confirm =>
    match Confirm m with
    | (_, m') => ((m', w), false)
  | .timerFire =>
    if m.state = .pending then
      match rollbackInternal o (fun _ => false) m w with
      | (_, m', w') => ((m', w'), true)
    else
      ((m, w), false)

/-- Run a serialized sequence of confirm/timer events, collecting whether any
step performed a rollback. -/
def run (o : Oracles) : List Ev → Manager → World → (Manager × World) × Bool
  | [], m, w => ((m, w), false)
  | e :: rest, m, w =>
    match step o m w e with
    | ((m', w'), did) =>
      match run o rest m' w' with
      | ((m'', w''), did') => ((m'', w''), did || did')

end transaction

/-- A UCI `option` line, `option '<key>' '<value>'`, as the parser receives
it (used to state claims about inputs with repeated option keys). -/
def optLine (k v : Str) : Str :=
  str "option " ++ ('\'' :: (k ++ ('\'' :: ' ' :: '\'' :: (v ++ ['\'']))))

/-- A UCI `config` line, `config <type> '<name>'`. -/
def cfgLine (t n : Str) : Str :=
  str "config " ++ (t ++ (' ' :: '\'' :: (n ++ ['\''])))

/-- A one-section input whose option lines all use the same key: a `config`
header followed by one `option '<k>' '<v>'` line per element of `vs`. -/
def dupOptionInput (t n k : Str) (vs : List Str) : Str :=
  cfgLine t n ++ vs.flatMap (fun v => '\n' :: optLine k v)

/-! ### Concrete instances used by witnesses and counterexamples -/

def oAll : transaction.Oracles :=
  ⟨true, true, true, fun _ => true, fun _ => true, fun _ => true,
   fun _ => true, fun _ => true, fun _ => true, fun s => s⟩

def netDoc : uci.Config :=
  ⟨[⟨str "interface", str "wan", [(str "ipaddr", str "192.168.1.100")], []⟩]⟩

def w0 : transaction.World := ⟨⟨[(str "network", netDoc)]⟩, [], [], []⟩

def configCorrupt (hash : Str → Str) (s : snapshot.Snapshot) (c : Str) : Bool :=
  match getAssoc s.files c with
  | none => true
  | some content =>
    (if s.checksums ≠ [] then
      match getAssoc s.checksums c with
      | some expected => hash content != expected
      | none => false
     else false) ||
    (match uci.Parse content with
     | .error _ => true
     | .ok _ => false)

def badSnap : snapshot.Snapshot :=
  ⟨str "snap-bad", 1, str "backup", [str "network"], [], [(str "network", str "garbage")]⟩

def snapA : snapshot.Snapshot := ⟨str "snap-a", 1, str "", [], [], []⟩

def snapB : snapshot.Snapshot := ⟨str "snap-b", 2, str "", [], [], []⟩

def snapC : snapshot.Snapshot := ⟨str "snap-c", 3, str "", [], [], []⟩

def goodSnap : snapshot.Snapshot :=
  ⟨str "snap-good", 1, str "m", [str "network"],
   [], [(str "network", str "config interface 'wan'\n")]⟩

def mPend : transaction.Manager :=
  ⟨.pending, some goodSnap, true, true, [str "network"]⟩

def wPend : transaction.World :=
  ⟨⟨[]⟩, [(str "network", str "config interface 'lan'\n")], [goodSnap], []⟩

/-! ### Helper lemmas and claim theorems -/

theorem getAssoc_eq_none {α : Type} (l : List (Str × α)) (k : Str)
    (h : ∀ p ∈ l, p.1 ≠ k) : getAssoc l k = none := by
  induction l with
  | nil => rfl
  | cons p rest ih =>
    simp only [getAssoc]
    rw [if_neg (h p (by simp))]
    exact ih (fun q hq => h q (by simp [hq]))

/-- Claim C8: the network applier's netmask-to-CIDR conversion maps every
dotted contiguous netmask in its table (255.0.0.0 /8 through
255.255.255.255 /32) to the corresponding prefix length, and maps every
other input string to the fallback /24. -/
theorem convertNetmaskToCIDR_spec :
    (∀ p ∈ appliers.masks, appliers.convertNetmaskToCIDR p.1 = p.2) ∧
    (∀ nm : Str, (∀ p ∈ appliers.masks, p.1 ≠ nm) →
      appliers.convertNetmaskToCIDR nm = 24) := by
  constructor
  · decide
  · intro nm h
    unfold appliers.convertNetmaskToCIDR
    rw [getAssoc_eq_none _ _ h]
    rfl

theorem convertNetmaskToCIDR_witness :
    appliers.convertNetmaskToCIDR (str "255.255.255.0") = 24 ∧
    appliers.convertNetmaskToCIDR (str "255.0.0.255") = 24 :=
  ⟨convertNetmaskToCIDR_spec.1 (str "255.255.255.0", 24) (by decide),
   convertNetmaskToCIDR_spec.2 (str "255.0.0.255") (by decide)⟩

/-- Claim C1 (code bug): the emitter escapes a single quote in an option
value as backslash-quote, but the parser has no escape handling, so
`Parse (Write d)` fails with a parse error instead of returning a document
equal to `d`.  Here the one-section document with option value containing a
single quote round-trips to the error `line 2: invalid option line`. -/
theorem parse_write_quote_failure :
    uci.Parse (uci.Write ⟨[⟨str "interface", str "wan",
        [(str "proto", str "it's")], []⟩]⟩)
      = .error "line 2: invalid option line" := rfl

theorem commit_busy_of_not_idle (o : transaction.Oracles) (cancelled : Nat → Bool)
    (now : Nat) (snapId : Str) (message : Str) (confirmTimeout overallTimeout : Nat)
    (m : transaction.Manager) (w : transaction.World)
    (h : m.state ≠ .idle) :
    transaction.Commit o cancelled now snapId message confirmTimeout overallTimeout m w
      = (.error ("transaction already in progress (state: " ++ m.state.toStr ++ ")"), m, w) := by
  unfold transaction.Commit
  rw [if_pos h]

/-- Claim C2: whenever `Commit` is called on the transaction engine while
its state is not `Idle`, for any arguments, it fails with the Busy error
and has no effect: manager and world (staging overlay, active directory,
snapshot store, applier log) are returned unchanged. -/
theorem Commit_busy_no_effect (o : transaction.Oracles) (cancelled : Nat → Bool)
    (now : Nat) (snapId : Str) (message : Str) (confirmTimeout overallTimeout : Nat)
    (m : transaction.Manager) (w : transaction.World)
    (h : m.state ≠ .idle) :
    transaction.Commit o cancelled now snapId message confirmTimeout overallTimeout m w
      = (.error ("transaction already in progress (state: " ++ m.state.toStr ++ ")"), m, w) :=
  commit_busy_of_not_idle o cancelled now snapId message confirmTimeout overallTimeout m w h

theorem Commit_busy_witness :
    transaction.Manager.state ⟨.pending, none, true, true, [str "network"]⟩ ≠ .idle ∧
    transaction.Commit oAll (fun _ => false) 0 (str "s1") (str "m") 0 0
        ⟨.pending, none, true, true, [str "network"]⟩ w0
      = (.error ("transaction already in progress (state: pending)"),
         ⟨.pending, none, true, true, [str "network"]⟩, w0) :=
  ⟨by decide,
   Commit_busy_no_effect oAll (fun _ => false) 0 (str "s1") (str "m") 0 0
     ⟨.pending, none, true, true, [str "network"]⟩ w0 (by decide)⟩

/-- Claim C4, counterexample: a fully successful commit with
`confirmT = overallT = 0` returns ok but leaves the engine's observable
state `Completed`, not `Idle` as the claim asserts. -/
theorem commit_zero_confirm_cex :
    (transaction.Commit oAll (fun _ => false) 0 (str "s1") (str "m") 0 0
        transaction.NewManager w0).1 = .ok () ∧
    (transaction.Commit oAll (fun _ => false) 0 (str "s1") (str "m") 0 0
        transaction.NewManager w0).2.1.state ≠ transaction.State.idle :=
  ⟨rfl, by decide⟩

/-- Claim C4, amended: after a successful commit with `confirmT = 0`, the
engine's observable state when `Commit` returns is `Completed`, and since
`Commit` requires `Idle`, any subsequent commit on the same engine fails
with the Busy error and changes nothing. -/
theorem commit_zero_confirm_completed (o : transaction.Oracles) (cancelled : Nat → Bool)
    (now : Nat) (snapId : Str) (message : Str) (overallTimeout : Nat)
    (m : transaction.Manager) (w : transaction.World)
    (hok : (transaction.Commit o cancelled now snapId message 0 overallTimeout m w).1 = .ok ()) :
    (transaction.Commit o cancelled now snapId message 0 overallTimeout m w).2.1.state
        = transaction.State.completed ∧
    ∀ (o₂ : transaction.Oracles) (c₂ : Nat → Bool) (n₂ : Nat) (id₂ msg₂ : Str)
      (cT₂ oT₂ : Nat) (w₂ : transaction.World),
      transaction.Commit o₂ c₂ n₂ id₂ msg₂ cT₂ oT₂
          (transaction.Commit o cancelled now snapId message 0 overallTimeout m w).2.1 w₂
        = (.error "transaction already in progress (state: completed)",
           (transaction.Commit o cancelled now snapId message 0 overallTimeout m w).2.1, w₂) := by
  have hstate :
      (transaction.Commit o cancelled now snapId message 0 overallTimeout m w).2.1.state
        = transaction.State.completed := by
    revert hok
    unfold transaction.Commit
    dsimp only
    repeat' split
    all_goals intro hok
    all_goals try rfl
    all_goals exfalso
    all_goals first
      | omega
      | simp at hok
  refine ⟨hstate, ?_⟩
  intro o₂ c₂ n₂ id₂ msg₂ cT₂ oT₂ w₂
  have h := commit_busy_of_not_idle o₂ c₂ n₂ id₂ msg₂ cT₂ oT₂
    (transaction.Commit o cancelled now snapId message 0 overallTimeout m w).2.1 w₂
    (by rw [hstate]; decide)
  rwa [hstate] at h

theorem splitPathAux_dot_nilcur (rest : Str) (parts : List Str) :
    config.splitPathAux ('.' :: rest) parts [] = config.splitPathAux rest parts [] := by
  simp [config.splitPathAux]

theorem splitPathAux_trailing_dot (p : Str) :
    ∀ (parts : List Str) (cur : Str),
      config.splitPathAux (p ++ ['.']) parts cur = config.splitPathAux p parts cur := by
  induction p with
  | nil =>
    intro parts cur
    by_cases h : cur = []
    · subst h; simp [config.splitPathAux]
    · simp [config.splitPathAux, h]
  | cons c rest ih =>
    intro parts cur
    by_cases hc : c = '.'
    · subst hc
      by_cases h : cur = []
      · subst h; simp [config.splitPathAux, ih]
      · simp [config.splitPathAux, h, ih]
    · simp [config.splitPathAux, hc, ih]

theorem splitPathAux_double_dot (a : Str) (b : Str) :
    ∀ (parts : List Str) (cur : Str),
      config.splitPathAux (a ++ '.' :: '.' :: b) parts cur
        = config.splitPathAux (a ++ '.' :: b) parts cur := by
  induction a with
  | nil =>
    intro parts cur
    by_cases h : cur = []
    · subst h; simp [config.splitPathAux]
    · simp [config.splitPathAux, h]
  | cons c rest ih =>
    intro parts cur
    by_cases hc : c = '.'
    · subst hc
      by_cases h : cur = []
      · subst h; simp [config.splitPathAux, ih]
      · simp [config.splitPathAux, h, ih]
    · simp [config.splitPathAux, hc, ih]

theorem parsePath_congr (p q : Str) (h : config.splitPath p = config.splitPath q) :
    config.parsePath p = config.parsePath q := by
  unfold config.parsePath
  rw [h]

/-- Claim C10: dotted-path resolution drops empty segments: a leading dot,
a trailing dot, and a doubled dot have no effect on `splitPath`, and `Get`
and `Set` behave identically on any two paths with equal `splitPath`
results — in particular `network..wan.ipaddr` behaves like
`network.wan.ipaddr`. -/
theorem splitPath_drops_empty_segments :
    (∀ p : Str, config.splitPath ('.' :: p) = config.splitPath p) ∧
    (∀ p : Str, config.splitPath (p ++ ['.']) = config.splitPath p) ∧
    (∀ a b : Str, config.splitPath (a ++ '.' :: '.' :: b)
        = config.splitPath (a ++ '.' :: b)) ∧
    (∀ (m : config.Manager) (disk : Disk) (p q : Str),
      config.splitPath p = config.splitPath q →
      config.Get m disk p = config.Get m disk q ∧
      ∀ v : Str, config.Set m disk p v = config.Set m disk q v) := by
  refine ⟨?_, ?_, ?_, ?_⟩
  · intro p; exact splitPathAux_dot_nilcur p []
  · intro p; exact splitPathAux_trailing_dot p [] []
  · intro a b; exact splitPathAux_double_dot a b [] []
  · intro m disk p q h
    constructor
    · unfold config.Get
      rw [parsePath_congr p q h]
    · intro v
      unfold config.Set
      rw [parsePath_congr p q h]

theorem splitPath_witness :
    config.splitPath (str "network..wan.ipaddr") = config.splitPath (str "network.wan.ipaddr") ∧
    config.Get ⟨[]⟩ [] (str "network..wan.ipaddr") = config.Get ⟨[]⟩ [] (str "network.wan.ipaddr") :=
  ⟨splitPath_drops_empty_segments.2.2.1 (str "network") (str "wan.ipaddr"),
   (splitPath_drops_empty_segments.2.2.2 ⟨[]⟩ [] (str "network..wan.ipaddr")
      (str "network.wan.ipaddr")
      (splitPath_drops_empty_segments.2.2.1 (str "network") (str "wan.ipaddr"))).1⟩

set_option synthInstance.maxHeartbeats 400000 in

theorem commitWrites_ok_iff (wOk : Str → Bool) (l : List (Str × uci.Config)) (disk : Disk) :
    (config.commitWrites wOk l disk).1 = .ok () ↔ ∀ p ∈ l, wOk p.1 = true := by
  induction l generalizing disk with
  | nil => simp [config.commitWrites]
  | cons p rest ih =>
    by_cases h : wOk p.1 = true
    · simp [config.commitWrites, h, ih]
    · simp [config.commitWrites, h]

set_option synthInstance.maxHeartbeats 400000 in

/-- Claim C6: config-store `Commit` is atomic with respect to the staging
overlay: if writing any staged config fails, `Commit` returns an error
with the overlay intact and the files already written left as-is; the
overlay is cleared (so `has_changes` is false) exactly when every staged
config was written successfully. -/
theorem config_Commit_atomic (mkdirOk : Bool) (wOk : Str → Bool)
    (m : config.Manager) (disk : Disk) (hmk : mkdirOk = true) :
    ((∃ p ∈ m.staged, wOk p.1 = false) →
      ∃ e, config.Commit mkdirOk wOk m disk
            = (.error e, m, (config.commitWrites wOk m.staged disk).2)) ∧
    ((config.Commit mkdirOk wOk m disk).1 = .ok () →
      (config.Commit mkdirOk wOk m disk).2.1.staged = [] ∧
      config.HasChanges (config.Commit mkdirOk wOk m disk).2.1 = false) ∧
    (¬m.staged.isEmpty → (∀ p ∈ m.staged, wOk p.1 = true) →
      (config.Commit mkdirOk wOk m disk).1 = .ok ()) := by
  subst hmk
  refine ⟨?_, ?_, ?_⟩
  · rintro ⟨p, hp, hw⟩
    have hnil : m.staged ≠ [] := List.ne_nil_of_mem hp
    unfold config.Commit
    rw [if_neg (by simp [List.isEmpty_iff, hnil])]
    rw [if_neg (by simp)]
    rcases hW : config.commitWrites wOk m.staged disk with ⟨res, disk2⟩
    cases res with
    | ok u =>
      exfalso
      have hall := (commitWrites_ok_iff wOk m.staged disk).mp (by rw [hW])
      have := hall p hp
      rw [this] at hw
      simp at hw
    | error e =>
      exact ⟨e, by simp [hW]⟩
  · intro hok
    revert hok
    unfold config.Commit
    repeat' split
    all_goals intro hok
    all_goals try exact ⟨rfl, rfl⟩
    all_goals exact absurd hok (by simp)
  · intro hne hall
    unfold config.Commit
    rw [if_neg (by simp_all), if_neg (by simp)]
    rcases hW : config.commitWrites wOk m.staged disk with ⟨res, disk2⟩
    cases res with
    | ok u => simp
    | error e =>
      exfalso
      have := (commitWrites_ok_iff wOk m.staged disk).mpr hall
      rw [hW] at this
      simp at this

theorem validateConfigs_ok_iff (hash : Str → Str) (s : snapshot.Snapshot)
    (l : List Str) :
    snapshot.validateConfigs hash s l = .ok () ↔ ∀ c ∈ l, configCorrupt hash s c = false := by
  induction l with
  | nil => simp [snapshot.validateConfigs]
  | cons c rest ih =>
    unfold snapshot.validateConfigs
    rcases hf : getAssoc s.files c with _ | content
    · simp [configCorrupt, hf]
    · by_cases hck : s.checksums ≠ []
      · rcases hcs : getAssoc s.checksums c with _ | expected
        · rcases hp : uci.Parse content with e | cfg
          · simp [configCorrupt, hf, hck, hcs, hp]
          · simp [configCorrupt, hf, hck, hcs, hp, ih]
        · by_cases hh : hash content = expected
          · rcases hp : uci.Parse content with e | cfg
            · simp [configCorrupt, hf, hck, hcs, hh, hp]
            · simp [configCorrupt, hf, hck, hcs, hh, hp, ih]
          · simp [configCorrupt, hf, hck, hcs, hh]
      · rcases hp : uci.Parse content with e | cfg
        · simp [configCorrupt, hf, hck, hp]
        · simp [configCorrupt, hf, hck, hp, ih]

/-- Claim C5: for every snapshot whose metadata lists a config file that is
missing, whose content's hash differs from the stored checksum (when one is
present), or whose content fails to parse, `Restore` returns the
validation-failed (Corrupt) error and copies nothing: the active directory
is unchanged. -/
theorem Restore_corrupt_no_copy (hash : Str → Str) (copyOk : Str → Bool)
    (store : snapshot.Store) (disk : Disk) (id : Str) (s : snapshot.Snapshot)
    (hload : snapshot.Load store id = .ok s)
    (hbad : ∃ c ∈ s.configs, configCorrupt hash s c = true) :
    ∃ e, snapshot.Restore hash copyOk store disk id
          = (.error ("snapshot validation failed: " ++ e), disk) := by
  unfold snapshot.Restore
  rw [hload]
  dsimp only
  have hnot : ¬(snapshot.ValidateSnapshot hash s = .ok ()) := by
    unfold snapshot.ValidateSnapshot
    rw [validateConfigs_ok_iff]
    rcases hbad with ⟨c, hc, hcor⟩
    intro hall
    have := hall c hc
    rw [this] at hcor
    simp at hcor
  split
  · next e2 heq => exact ⟨e2, rfl⟩
  · next u heq =>
    exact absurd (by rw [heq] : snapshot.ValidateSnapshot hash s = .ok u) (by
      intro hc
      exact hnot (by rw [hc]))

theorem pruneGo_eq (l : List snapshot.Snapshot) :
    ∀ (st : snapshot.Store) (acc : List Str),
      snapshot.pruneGo l st acc
        = (acc ++ l.map (·.id), st.filter (fun s => s.id ∉ l.map (·.id))) := by
  induction l with
  | nil => intro st acc; simp [snapshot.pruneGo]
  | cons x l ih =>
    intro st acc
    rw [snapshot.pruneGo, ih]
    refine Prod.ext ?_ ?_
    · simp
    · show (snapshot.Delete st x.id).filter _ = _
      unfold snapshot.Delete
      rw [List.filter_filter]
      apply List.filter_congr
      intro s _
      simp only [List.map_cons, List.mem_cons, not_or, decide_eq_true_eq]
      by_cases h1 : s.id = x.id
      · simp [h1]
      · by_cases h2 : s.id ∈ l.map (·.id)
        · simp [h1, h2]
        · simp [h1, h2]

/-- Claim C7: for a store of `n` snapshots with distinct ids and distinct
timestamps, `Prune keep` with `n > keep` deletes exactly the `n - keep`
oldest snapshots by metadata timestamp and returns their ids (every deleted
snapshot is strictly older than every kept one, and exactly `keep` remain);
with `n ≤ keep` it deletes nothing and returns the empty list. -/
theorem Prune_keeps_most_recent (store : snapshot.Store) (keep : Nat)
    (hid : (store.map (·.id)).Nodup) (hts : (store.map (·.timestamp)).Nodup) :
    (store.length ≤ keep → snapshot.Prune store keep = ([], store)) ∧
    (keep < store.length →
      (snapshot.Prune store keep).1.length = store.length - keep ∧
      (snapshot.Prune store keep).2.length = keep ∧
      (∀ s ∈ store, s.id ∈ (snapshot.Prune store keep).1 →
        s ∉ (snapshot.Prune store keep).2) ∧
      (∀ s ∈ store, s.id ∉ (snapshot.Prune store keep).1 →
        s ∈ (snapshot.Prune store keep).2) ∧
      (∀ s ∈ store, ∀ t ∈ (snapshot.Prune store keep).2,
        s.id ∈ (snapshot.Prune store keep).1 → s.timestamp < t.timestamp)) := by
  have hperm : List.Perm (snapshot.listSnapshots store) store :=
    List.perm_insertionSort snapshot.newerEq store
  have hsort : List.Sorted snapshot.newerEq (snapshot.listSnapshots store) :=
    List.sorted_insertionSort snapshot.newerEq store
  have hlen : (snapshot.listSnapshots store).length = store.length := hperm.length_eq
  constructor
  · intro hle
    unfold snapshot.Prune
    rw [if_pos (by rw [hlen]; exact hle)]
  · intro hlt
    have hcond : ¬((snapshot.listSnapshots store).length ≤ keep) := by omega
    have hPr : snapshot.Prune store keep
        = (((snapshot.listSnapshots store).drop keep).map (·.id),
           store.filter
             (fun s => s.id ∉ (((snapshot.listSnapshots store).drop keep).map (·.id)))) := by
      unfold snapshot.Prune
      rw [if_neg hcond, pruneGo_eq]
      simp
    set sorted := snapshot.listSnapshots store with hsdef
    set deleted := (sorted.drop keep).map (·.id) with hddef
    -- injectivity of id on store members
    have hinj : ∀ x ∈ store, ∀ y ∈ store, x.id = y.id → x = y :=
      List.inj_on_of_nodup_map hid
    -- sorted splits into kept and dropped parts
    have hsplit : sorted.take keep ++ sorted.drop keep = sorted := List.take_append_drop _ _
    -- cross ordering between kept and dropped
    have hcross : ∀ x ∈ sorted.take keep, ∀ y ∈ sorted.drop keep, y.timestamp ≤ x.timestamp := by
      have hp : List.Pairwise snapshot.newerEq (sorted.take keep ++ sorted.drop keep) := by
        rw [hsplit]; exact hsort
      exact fun x hx y hy => (List.pairwise_append.mp hp).2.2 x hx y hy
    -- distinct timestamps across the split
    have htsd : ((sorted.take keep).map (·.timestamp)).Disjoint
        ((sorted.drop keep).map (·.timestamp)) := by
      have : ((sorted.take keep).map (·.timestamp)
          ++ (sorted.drop keep).map (·.timestamp)).Nodup := by
        rw [← List.map_append, hsplit]
        exact ((hperm.map (·.timestamp)).nodup_iff).mpr hts
      exact (List.nodup_append.mp this).2.2
    have hstrict : ∀ x ∈ sorted.take keep, ∀ y ∈ sorted.drop keep,
        y.timestamp < x.timestamp := by
      intro x hx y hy
      rcases lt_or_eq_of_le (hcross x hx y hy) with h | h
      · exact h
      · exact absurd (List.mem_map.mpr ⟨y, hy, h⟩)
          (fun hc => htsd (List.mem_map_of_mem (·.timestamp) hx) hc)
    -- membership in the kept part
    have hkeptmem : ∀ t ∈ store, t.id ∉ deleted → t ∈ sorted.take keep := by
      intro t ht hnd
      have : t ∈ sorted := hperm.mem_iff.mpr ht
      rw [← hsplit] at this
      rcases List.mem_append.mp this with h | h
      · exact h
      · exact absurd (List.mem_map_of_mem (·.id) h) hnd
    have hdropmem : ∀ s ∈ store, s.id ∈ deleted → s ∈ sorted.drop keep := by
      intro s hs hd
      rcases List.mem_map.mp hd with ⟨y, hy, hyid⟩
      have hys : y ∈ store := hperm.mem_iff.mp (List.mem_of_mem_drop hy)
      have : s = y := hinj s hs y hys hyid.symm
      rw [this]; exact hy
    have hlen2 : (sorted.drop keep).length = store.length - keep := by
      rw [List.length_drop, hlen]
    refine ⟨?_, ?_, ?_, ?_, ?_⟩
    · rw [hPr, hddef]
      simp only [List.length_map]
      omega
    · -- length of the filtered store
      rw [hPr]
      have hfilter_sorted : sorted.filter (fun s => s.id ∉ deleted) = sorted.take keep := by
        rw [← hsplit, List.filter_append]
        have h1 : (sorted.take keep).filter (fun s => s.id ∉ deleted) = sorted.take keep := by
          apply List.filter_eq_self.mpr
          intro a ha
          simp only [decide_eq_true_eq]
          intro hcon
          have ha' : a ∈ sorted.drop keep := by
            rcases List.mem_map.mp hcon with ⟨y, hy, hyid⟩
            have hys : y ∈ store := hperm.mem_iff.mp (List.mem_of_mem_drop hy)
            have has : a ∈ store := hperm.mem_iff.mp (List.mem_of_mem_take ha)
            have : a = y := hinj a has y hys hyid.symm
            rw [this]; exact hy
          exact absurd rfl (Nat.ne_of_lt (hstrict a ha a ha'))
        have h2 : (sorted.drop keep).filter (fun s => s.id ∉ deleted) = [] := by
          apply List.filter_eq_nil_iff.mpr
          intro a ha
          simp only [decide_eq_true_eq, not_not]
          exact List.mem_map_of_mem (·.id) ha
        rw [h1, h2, List.append_nil, hsplit]
      have hpf : List.Perm (store.filter (fun s => s.id ∉ deleted))
          (sorted.filter (fun s => s.id ∉ deleted)) :=
        (hperm.filter _).symm
      rw [hpf.length_eq, hfilter_sorted, List.length_take]
      omega
    · intro s hs hdel hmem
      rw [hPr] at hdel hmem
      have := (List.mem_filter.mp hmem).2
      simp only [decide_eq_true_eq] at this
      exact this hdel
    · intro s hs hnd
      rw [hPr] at hnd ⊢
      exact List.mem_filter.mpr ⟨hs, by simp only [decide_eq_true_eq]; exact hnd⟩
    · intro s hs t htm hdel
      rw [hPr] at htm hdel
      have hts' : t ∈ sorted.take keep := by
        have h1 := List.mem_filter.mp htm
        have h2 := h1.2
        simp only [decide_eq_true_eq] at h2
        exact hkeptmem t h1.1 h2
      exact hstrict t hts' s (hdropmem s hs hdel)

theorem Restore_corrupt_witness :
    ∃ e, snapshot.Restore (fun s => s) (fun _ => true) [badSnap]
          [(str "network", str "config interface 'wan'\n")] (str "snap-bad")
        = (.error ("snapshot validation failed: " ++ e),
           [(str "network", str "config interface 'wan'\n")]) :=
  Restore_corrupt_no_copy (fun s => s) (fun _ => true) [badSnap]
    [(str "network", str "config interface 'wan'\n")] (str "snap-bad") badSnap
    rfl ⟨str "network", by decide, by decide⟩

theorem config_Commit_atomic_witness :
    ∃ e, config.Commit true (fun _ => false) ⟨[(str "network", netDoc)]⟩ []
          = (.error e, ⟨[(str "network", netDoc)]⟩,
             (config.commitWrites (fun _ => false) [(str "network", netDoc)] []).2) :=
  (config_Commit_atomic true (fun _ => false) ⟨[(str "network", netDoc)]⟩ [] rfl).1
    ⟨(str "network", netDoc), by simp, rfl⟩

theorem Prune_witness :
    (snapshot.Prune [snapA, snapB, snapC] 1).1.length = 2 ∧
    (snapshot.Prune [snapA, snapB, snapC] 1).2.length = 1 ∧
    snapshot.Prune [snapA, snapB, snapC] 5 = ([], [snapA, snapB, snapC]) :=
  have h := Prune_keeps_most_recent [snapA, snapB, snapC] 1 (by decide) (by decide)
  have h5 := Prune_keeps_most_recent [snapA, snapB, snapC] 5 (by decide) (by decide)
  ⟨(h.2 (by decide)).1, ((h.2 (by decide)).2).1, h5.1 (by decide)⟩

theorem rollbackInternal_ok_state (o : transaction.Oracles) (cancelled : Nat → Bool)
    (m : transaction.Manager) (w : transaction.World)
    (hok : (transaction.rollbackInternal o cancelled m w).1 = .ok ()) :
    (transaction.rollbackInternal o cancelled m w).2.1.state = transaction.State.idle := by
  revert hok
  unfold transaction.rollbackInternal
  dsimp only
  repeat' split
  all_goals intro hok
  all_goals try rfl
  all_goals exact absurd hok (by simp)

theorem run_state_idle (o : transaction.Oracles) (tr : List transaction.Ev) :
    ∀ (m : transaction.Manager) (w : transaction.World), m.state = transaction.State.idle →
      transaction.run o tr m w = ((m, w), false) := by
  induction tr with
  | nil => intro m w h; rfl
  | cons e tr ih =>
    intro m w h
    cases e with
    | confirm =>
      rw [transaction.run]
      have hstep : transaction.step o m w .confirm = ((m, w), false) := by
        unfold transaction.step transaction.Confirm
        rw [if_pos (by rw [h]; decide)]
      rw [hstep]
      dsimp only
      rw [ih m w h]
      rfl
    | timerFire =>
      rw [transaction.run]
      have hstep : transaction.step o m w .timerFire = ((m, w), false) := by
        unfold transaction.step
        rw [if_neg (by rw [h]; decide)]
      rw [hstep]
      dsimp only
      rw [ih m w h]
      rfl

theorem run_state_completed (o : transaction.Oracles) (tr : List transaction.Ev) :
    ∀ (m : transaction.Manager) (w : transaction.World),
      m.state = transaction.State.completed →
      transaction.run o tr m w = ((m, w), false) := by
  induction tr with
  | nil => intro m w h; rfl
  | cons e tr ih =>
    intro m w h
    cases e with
    | confirm =>
      rw [transaction.run]
      have hstep : transaction.step o m w .confirm = ((m, w), false) := by
        unfold transaction.step transaction.Confirm
        rw [if_pos (by rw [h]; decide)]
      rw [hstep]
      dsimp only
      rw [ih m w h]
      rfl
    | timerFire =>
      rw [transaction.run]
      have hstep : transaction.step o m w .timerFire = ((m, w), false) := by
        unfold transaction.step
        rw [if_neg (by rw [h]; decide)]
      rw [hstep]
      dsimp only
      rw [ih m w h]
      rfl

/-- Claim C3: from `Pending`, (a) if no `Confirm` occurs among the
serialized events before the confirmation timer fires, the timer's firing
rolls back (the run reports a rollback was performed) and the engine ends
`Idle` (given the rollback's restore and re-applies succeed); (b) a
`Confirm` from `Pending` returns ok, after which any sequence of confirm or
timer events leaves the engine `Completed` and performs no rollback. -/
theorem confirm_or_revert (o : transaction.Oracles) (m : transaction.Manager)
    (w : transaction.World) (hp : m.state = transaction.State.pending) :
    (∀ tr : List transaction.Ev, transaction.Ev.confirm ∉ tr →
      (transaction.rollbackInternal o (fun _ => false) m w).1 = .ok () →
      (transaction.run o (tr ++ [transaction.Ev.timerFire]) m w).1.1.state
          = transaction.State.idle ∧
      (transaction.run o (tr ++ [transaction.Ev.timerFire]) m w).2 = true) ∧
    ((transaction.Confirm m).1 = .ok () ∧
     ∀ tr2 : List transaction.Ev,
       (transaction.run o tr2 (transaction.Confirm m).2 w).1.1.state
          = transaction.State.completed ∧
       (transaction.run o tr2 (transaction.Confirm m).2 w).2 = false) := by
  have hfire : ∀ w' : transaction.World,
      transaction.step o m w' .timerFire
        = (((transaction.rollbackInternal o (fun _ => false) m w').2.1,
            (transaction.rollbackInternal o (fun _ => false) m w').2.2), true) := by
    intro w'
    unfold transaction.step
    rw [if_pos hp]
  have hconf : transaction.Confirm m
      = (.ok (),
         { m with state := .completed, pendingConfirm := false, confirmArmed := false }) := by
    unfold transaction.Confirm
    rw [if_neg (by rw [hp]; simp)]
  constructor
  · intro tr hnc hroll
    cases tr with
    | nil =>
      rw [List.nil_append, transaction.run, hfire w]
      dsimp only
      have hidle := rollbackInternal_ok_state o (fun _ => false) m w hroll
      rw [run_state_idle o [] _ _ hidle]
      exact ⟨hidle, rfl⟩
    | cons e tr =>
      cases e with
      | confirm => exact absurd (by simp) hnc
      | timerFire =>
        rw [List.cons_append, transaction.run, hfire w]
        dsimp only
        have hidle := rollbackInternal_ok_state o (fun _ => false) m w hroll
        rw [run_state_idle o (tr ++ [transaction.Ev.timerFire]) _ _ hidle]
        exact ⟨hidle, rfl⟩
  · constructor
    · rw [hconf]
    · intro tr2
      rw [hconf]
      dsimp only
      rw [run_state_completed o tr2 _ w rfl]
      exact ⟨rfl, rfl⟩

theorem commit_zero_confirm_completed_witness :
    (transaction.Commit oAll (fun _ => false) 0 (str "s1") (str "m") 0 0
        transaction.NewManager w0).2.1.state = transaction.State.completed :=
  (commit_zero_confirm_completed oAll (fun _ => false) 0 (str "s1") (str "m") 0
    transaction.NewManager w0 rfl).1

theorem confirm_or_revert_witness :
    (transaction.run oAll [transaction.Ev.timerFire] mPend wPend).1.1.state
        = transaction.State.idle ∧
    (transaction.run oAll [transaction.Ev.timerFire]
        (transaction.Confirm mPend).2 wPend).1.1.state = transaction.State.completed :=
  have h := confirm_or_revert oAll mPend wPend rfl
  ⟨(h.1 [] (by simp) rfl).1, (h.2.2 [transaction.Ev.timerFire]).1⟩

theorem splitNl_ne_nil (s : Str) : uci.splitNl s ≠ [] := by
  cases s with
  | nil => simp [uci.splitNl]
  | cons c rest =>
    rw [uci.splitNl]
    rcases h : uci.splitNl rest with _ | ⟨p, ps⟩
    · simp
    · by_cases hc : c = '\n' <;> simp [hc]

theorem splitNl_no_nl (a : Str) (ha : '\n' ∉ a) : uci.splitNl a = [a] := by
  induction a with
  | nil => rfl
  | cons c rest ih =>
    rw [uci.splitNl]
    have hc : c ≠ '\n' := fun h => ha (by rw [h]; exact List.mem_cons_self _ _)
    rw [ih (fun h => ha (List.mem_cons_of_mem _ h))]
    simp [hc]

theorem splitNl_append_nl (a b : Str) (ha : '\n' ∉ a) :
    uci.splitNl (a ++ '\n' :: b) = a :: uci.splitNl b := by
  induction a with
  | nil =>
    rw [List.nil_append, uci.splitNl]
    rcases h : uci.splitNl b with _ | ⟨p, ps⟩
    · exact absurd h (splitNl_ne_nil b)
    · simp
  | cons c rest ih =>
    have hc : c ≠ '\n' := fun h => ha (by rw [h]; exact List.mem_cons_self _ _)
    rw [List.cons_append, uci.splitNl, ih (fun h => ha (List.mem_cons_of_mem _ h))]
    simp [hc]

theorem splitNl_joined (ls : List Str) :
    ∀ first : Str, '\n' ∉ first → (∀ l ∈ ls, '\n' ∉ l) →
      uci.splitNl (first ++ ls.flatMap (fun l => '\n' :: l)) = first :: ls := by
  induction ls with
  | nil =>
    intro first hf _
    simp [splitNl_no_nl first hf]
  | cons l ls ih =>
    intro first hf hls
    have : first ++ (l :: ls).flatMap (fun l => '\n' :: l)
        = first ++ '\n' :: (l ++ ls.flatMap (fun l => '\n' :: l)) := by simp
    rw [this, splitNl_append_nl first _ hf,
        ih l (hls l (by simp)) (fun x hx => hls x (by simp [hx]))]

theorem trimRight_ends_nonspace (c : Char) (hc : ¬(uci.isSpace c = true)) :
    ∀ pre : Str, uci.trimRight (pre ++ [c]) = pre ++ [c] := by
  intro pre
  induction pre with
  | nil => simp [uci.trimRight, hc]
  | cons p pre ih =>
    rw [List.cons_append, uci.trimRight]
    simp only [ih]
    have : ¬(pre ++ [c] = [] ∧ uci.isSpace p = true) := by
      intro ⟨h1, _⟩
      exact absurd h1 (by simp)
    rw [if_neg this]

theorem TrimSpace_line (c : Char) (hc : ¬(uci.isSpace c = true))
    (d : Char) (hd : ¬(uci.isSpace d = true)) (mid : Str) :
    uci.TrimSpace (c :: mid ++ [d]) = c :: mid ++ [d] := by
  unfold uci.TrimSpace
  rw [show uci.trimLeft (c :: mid ++ [d]) = c :: mid ++ [d] by
    rw [uci.trimLeft.eq_def]
    simp [hc]]
  exact trimRight_ends_nonspace d hd (c :: mid)

theorem pql_consume_quoted (cs : Str) (hcs : ∀ c ∈ cs, c ≠ '\'') :
    ∀ (rest : Str) (parts : List Str) (cur : Str),
      uci.parseQuotedLineAux (cs ++ rest) parts cur true '\''
        = uci.parseQuotedLineAux rest parts (cur ++ cs) true '\'' := by
  induction cs with
  | nil => intro rest parts cur; simp
  | cons c cs ih =>
    intro rest parts cur
    have hc : c ≠ '\'' := hcs c (by simp)
    rw [List.cons_append, uci.parseQuotedLineAux]
    rw [if_neg (by simp), if_neg (by simp [hc]), if_pos (by simp)]
    rw [ih (fun x hx => hcs x (by simp [hx])) rest parts (cur ++ [c])]
    simp

theorem pql_consume_bare (cs : Str)
    (hcs : ∀ c ∈ cs, ¬(c = ' ' ∨ c = '\t') ∧ c ≠ '\'' ∧ c ≠ '"') :
    ∀ (rest : Str) (parts : List Str) (cur : Str) (q : Char),
      uci.parseQuotedLineAux (cs ++ rest) parts cur false q
        = uci.parseQuotedLineAux rest parts (cur ++ cs) false q := by
  induction cs with
  | nil => intro rest parts cur q; simp
  | cons c cs ih =>
    intro rest parts cur q
    obtain ⟨hsp, hq1, hq2⟩ := hcs c (by simp)
    rw [List.cons_append, uci.parseQuotedLineAux]
    rw [if_neg (by simp [hq1, hq2]), if_neg (by simp), if_neg (by simp), if_neg (by simp [hsp])]
    rw [ih (fun x hx => hcs x (by simp [hx])) rest parts (cur ++ [c]) q]
    simp

theorem parseQuotedLine_pair (k v : Str) (hk : ∀ c ∈ k, c ≠ '\'') (hv : ∀ c ∈ v, c ≠ '\'') :
    uci.parseQuotedLine ('\'' :: (k ++ ('\'' :: ' ' :: '\'' :: (v ++ ['\''])))) = [k, v] := by
  unfold uci.parseQuotedLine
  rw [show uci.parseQuotedLineAux ('\'' :: (k ++ ('\'' :: ' ' :: '\'' :: (v ++ ['\'']))))
        [] [] false (Char.ofNat 0)
      = uci.parseQuotedLineAux (k ++ ('\'' :: ' ' :: '\'' :: (v ++ ['\'']))) [] [] true '\''
    from rfl]
  rw [pql_consume_quoted k hk ('\'' :: ' ' :: '\'' :: (v ++ ['\''])) [] []]
  rw [show uci.parseQuotedLineAux ('\'' :: ' ' :: '\'' :: (v ++ ['\''])) [] ([] ++ k) true '\''
      = uci.parseQuotedLineAux (v ++ ['\'']) [k] [] true '\'' from rfl]
  rw [pql_consume_quoted v hv ['\''] [k] []]
  rw [show uci.parseQuotedLineAux ['\''] [k] ([] ++ v) true '\'' = [k, v] from rfl]

theorem parseQuotedLine_config (t n : Str) (htne : t ≠ [])
    (ht : ∀ c ∈ t, ¬(c = ' ' ∨ c = '\t') ∧ c ≠ '\'' ∧ c ≠ '"')
    (hn : ∀ c ∈ n, c ≠ '\'') :
    uci.parseQuotedLine (t ++ (' ' :: '\'' :: (n ++ ['\'']))) = [t, n] := by
  unfold uci.parseQuotedLine
  rw [pql_consume_bare t ht (' ' :: '\'' :: (n ++ ['\''])) [] [] (Char.ofNat 0)]
  simp only [List.nil_append]
  rw [uci.parseQuotedLineAux]
  rw [if_neg (by simp), if_neg (by simp), if_neg (by simp), if_pos (by simp)]
  rw [if_pos (by simpa using htne)]
  rw [show uci.parseQuotedLineAux ('\'' :: (n ++ ['\''])) ([] ++ [t]) [] false (Char.ofNat 0)
      = uci.parseQuotedLineAux (n ++ ['\'']) [t] [] true '\'' from rfl]
  rw [pql_consume_quoted n hn ['\''] [t] []]
  rw [show uci.parseQuotedLineAux ['\''] [t] ([] ++ n) true '\'' = [t, n] from rfl]

theorem TrimSpace_optLine (k v : Str) : uci.TrimSpace (optLine k v) = optLine k v := by
  have hsh : optLine k v
      = 'o' :: ((str "ption " ++ ('\'' :: (k ++ ('\'' :: ' ' :: '\'' :: v)))) ++ ['\'']) := by
    simp [optLine, str]
  rw [hsh]
  exact TrimSpace_line 'o' (by decide) '\'' (by decide) _

theorem TrimSpace_cfgLine (t n : Str) : uci.TrimSpace (cfgLine t n) = cfgLine t n := by
  have hsh : cfgLine t n
      = 'c' :: ((str "onfig " ++ (t ++ (' ' :: '\'' :: n))) ++ ['\'']) := by
    simp [cfgLine, str]
  rw [hsh]
  exact TrimSpace_line 'c' (by decide) '\'' (by decide) _

theorem parseLines_optLine (k v : Str) (hk : ∀ c ∈ k, c ≠ '\'') (hv : ∀ c ∈ v, c ≠ '\'')
    (rest : List Str) (n : Nat) (s : uci.Section) (cfg : uci.Config) :
    uci.parseLines (optLine k v :: rest) n (some s) cfg
      = uci.parseLines rest (n + 1) (some (s.SetOption k v)) cfg := by
  rw [uci.parseLines]
  dsimp only
  rw [TrimSpace_optLine]
  rw [if_neg (by
    simp only [optLine, str]
    intro h
    rcases h with h | h
    · simp at h
    · simp [List.isPrefixOf] at h)]
  rw [if_neg (by simp only [optLine, str]; simp [List.isPrefixOf])]
  rw [if_pos (by
    simp only [optLine]
    rw [ List.isPrefixOf_iff_prefix]
    exact List.prefix_append _ _)]
  rw [show (optLine k v).drop 7
      = '\'' :: (k ++ ('\'' :: ' ' :: '\'' :: (v ++ ['\'']))) by
    unfold optLine
    have h7 : (str "option ").length = 7 := rfl
    rw [← h7]
    exact List.drop_left _ _]
  rw [parseQuotedLine_pair k v hk hv]

theorem parseLines_cfgLine (t n : Str) (htne : t ≠ [])
    (ht : ∀ c ∈ t, ¬(c = ' ' ∨ c = '\t') ∧ c ≠ '\'' ∧ c ≠ '"')
    (hn : ∀ c ∈ n, c ≠ '\'')
    (rest : List Str) (ln : Nat) (cfg : uci.Config) :
    uci.parseLines (cfgLine t n :: rest) ln none cfg
      = uci.parseLines rest (ln + 1) (some (uci.NewSection t n)) cfg := by
  rw [uci.parseLines]
  dsimp only
  rw [TrimSpace_cfgLine]
  rw [if_neg (by
    simp only [cfgLine, str]
    intro h
    rcases h with h | h
    · simp at h
    · simp [List.isPrefixOf] at h)]
  rw [if_pos (by
    simp only [cfgLine]
    rw [ List.isPrefixOf_iff_prefix]
    exact List.prefix_append _ _)]
  rw [show (cfgLine t n).drop 7 = t ++ (' ' :: '\'' :: (n ++ ['\''])) by
    unfold cfgLine
    have h7 : (str "config ").length = 7 := rfl
    rw [← h7]
    exact List.drop_left _ _]
  rw [parseQuotedLine_config t n htne ht hn]
  rfl

theorem parseLines_opts (k : Str) (hk : ∀ c ∈ k, c ≠ '\'') (values : List Str)
    (hvs : ∀ v ∈ values, ∀ c ∈ v, c ≠ '\'') :
    ∀ (ln : Nat) (s : uci.Section) (cfg : uci.Config),
      uci.parseLines (values.map (optLine k)) ln (some s) cfg
        = .ok (cfg.AddSection (values.foldl (fun s v => s.SetOption k v) s)) := by
  induction values with
  | nil => intro ln s cfg; rfl
  | cons v values ih =>
    intro ln s cfg
    rw [List.map_cons, parseLines_optLine k v hk (hvs v (by simp)),
        ih (fun x hx => hvs x (by simp [hx])) (ln + 1) (s.SetOption k v) cfg]
    rfl

theorem nl_not_mem_optLine (k v : Str) (hkn : '\n' ∉ k) (hvn : '\n' ∉ v) :
    '\n' ∉ optLine k v := by
  intro h
  simp [optLine, str] at h
  rcases h with h | h <;> simp_all

theorem nl_not_mem_cfgLine (t n : Str) (htn : '\n' ∉ t) (hnn : '\n' ∉ n) :
    '\n' ∉ cfgLine t n := by
  intro h
  simp [cfgLine, str] at h
  rcases h with h | h <;> simp_all

theorem optLine_getLast (k v : Str) : (optLine k v).getLast? = some '\'' := by
  have hsh : optLine k v
      = ('o' :: (str "ption " ++ ('\'' :: (k ++ ('\'' :: ' ' :: '\'' :: v))))) ++ ['\''] := by
    simp [optLine, str]
  rw [hsh, List.getLast?_concat]

theorem cfgLine_getLast (t n : Str) : (cfgLine t n).getLast? = some '\'' := by
  have hsh : cfgLine t n
      = ('c' :: (str "onfig " ++ (t ++ (' ' :: '\'' :: n)))) ++ ['\''] := by
    simp [cfgLine, str]
  rw [hsh, List.getLast?_concat]

theorem dropCR_quote (l : Str) (h : l.getLast? = some '\'') : uci.dropCR l = l := by
  unfold uci.dropCR
  rw [h]
  simp

theorem flat_getLast (k : Str) :
    ∀ (vs : List Str) (v : Str),
      (('\n' :: optLine k v) ++ vs.flatMap (fun v => '\n' :: optLine k v)).getLast?
        = some '\'' := by
  intro vs
  induction vs with
  | nil =>
    intro v
    simp only [List.flatMap_nil, List.append_nil]
    have hsh : '\n' :: optLine k v
        = ('\n' :: ('o' :: (str "ption " ++ ('\'' :: (k ++ ('\'' :: ' ' :: '\'' :: v)))))) ++ ['\''] := by
      simp [optLine, str]
    rw [hsh, List.getLast?_concat]
  | cons v' vs ih =>
    intro v
    rw [List.flatMap_cons]
    rw [List.getLast?_append_of_ne_nil _
      (show ('\n' :: optLine k v') ++ vs.flatMap (fun v => '\n' :: optLine k v) ≠ [] by simp)]
    exact ih v'

theorem scanLines_dupInput (t n k : Str) (v0 : Str) (vs : List Str)
    (htn : '\n' ∉ t) (hnn : '\n' ∉ n) (hkn : '\n' ∉ k)
    (hvn : ∀ v ∈ (v0 :: vs), '\n' ∉ v) :
    uci.scanLines (dupOptionInput t n k (v0 :: vs))
      = cfgLine t n :: (v0 :: vs).map (optLine k) := by
  have hlast : (dupOptionInput t n k (v0 :: vs)).getLast? = some '\'' := by
    unfold dupOptionInput
    rw [List.flatMap_cons]
    rw [List.getLast?_append_of_ne_nil _
      (show ('\n' :: optLine k v0) ++ vs.flatMap (fun v => '\n' :: optLine k v) ≠ [] by simp)]
    exact flat_getLast k vs v0
  have hne : dupOptionInput t n k (v0 :: vs) ≠ [] := by
    intro h
    rw [h] at hlast
    simp at hlast
  unfold uci.scanLines
  rw [if_neg hne, if_neg (by rw [hlast]; simp)]
  have hjoin : dupOptionInput t n k (v0 :: vs)
      = cfgLine t n
        ++ ((v0 :: vs).map (optLine k)).flatMap (fun l => '\n' :: l) := by
    unfold dupOptionInput
    rw [List.flatMap_map]
  rw [hjoin, splitNl_joined _ (cfgLine t n) (nl_not_mem_cfgLine t n htn hnn)
    (by
      intro l hl
      rcases List.mem_map.mp hl with ⟨v, hv, rfl⟩
      exact nl_not_mem_optLine k v hkn (hvn v hv))]
  rw [List.map_cons, dropCR_quote _ (cfgLine_getLast t n), List.map_map]
  congr 1
  apply List.map_congr_left
  intro v _
  exact dropCR_quote _ (optLine_getLast k v)

theorem foldl_SetOption_getLastD (k : Str) :
    ∀ (l : List Str) (c t n : Str),
      l.foldl (fun (s : uci.Section) v => s.SetOption k v) ⟨t, n, [(k, c)], []⟩
        = (⟨t, n, [(k, l.getLastD c)], []⟩ : uci.Section) := by
  intro l
  induction l with
  | nil => intro c t n; rfl
  | cons v l ih =>
    intro c t n
    rw [List.foldl_cons]
    have hstep : uci.Section.SetOption ⟨t, n, [(k, c)], []⟩ k v = ⟨t, n, [(k, v)], []⟩ := by
      simp [uci.Section.SetOption, setAssoc]
    rw [hstep, ih v t n, List.getLastD_cons]

/-- Claim C9: when an input contains several `option` lines with the same
key inside one section, `Parse` succeeds and the section's option value for
that key is the value of the last such line (earlier values are
overwritten, not rejected).  The token hypotheses exclude only characters
that would change the line structure itself (quotes, newlines). -/
theorem Parse_duplicate_option_last_wins (t n k v0 : Str) (vs : List Str)
    (htne : t ≠ [])
    (ht : ∀ c ∈ t, ¬(c = ' ' ∨ c = '\t') ∧ c ≠ '\'' ∧ c ≠ '"')
    (htn : '\n' ∉ t)
    (hn : ∀ c ∈ n, c ≠ '\'') (hnn : '\n' ∉ n)
    (hk : ∀ c ∈ k, c ≠ '\'') (hkn : '\n' ∉ k)
    (hv : ∀ v ∈ (v0 :: vs), ∀ c ∈ v, c ≠ '\'')
    (hvn : ∀ v ∈ (v0 :: vs), '\n' ∉ v) :
    uci.Parse (dupOptionInput t n k (v0 :: vs))
      = .ok ⟨[⟨t, n, [(k, vs.getLastD v0)], []⟩]⟩ := by
  unfold uci.Parse
  rw [scanLines_dupInput t n k v0 vs htn hnn hkn hvn]
  rw [parseLines_cfgLine t n htne ht hn ((v0 :: vs).map (optLine k)) 0 uci.NewConfig]
  rw [parseLines_opts k hk (v0 :: vs) hv (0 + 1) (uci.NewSection t n) uci.NewConfig]
  have hfold : (v0 :: vs).foldl (fun (s : uci.Section) v => s.SetOption k v)
        (uci.NewSection t n)
      = (⟨t, n, [(k, vs.getLastD v0)], []⟩ : uci.Section) := by
    rw [List.foldl_cons]
    have hstep : (uci.NewSection t n).SetOption k v0 = ⟨t, n, [(k, v0)], []⟩ := rfl
    rw [hstep, foldl_SetOption_getLastD k vs v0 t n]
  rw [hfold]
  rfl

theorem Parse_duplicate_option_witness :
    uci.Parse (dupOptionInput (str "interface") (str "wan") (str "proto")
        [str "dhcp", str "static"])
      = .ok ⟨[⟨str "interface", str "wan", [(str "proto", str "static")], []⟩]⟩ :=
  Parse_duplicate_option_last_wins (str "interface") (str "wan") (str "proto")
    (str "dhcp") [str "static"] (by decide) (by decide) (by decide) (by decide)
    (by decide) (by decide) (by decide) (by decide) (by decide)
